import Mathlib

/-!
# Verification of the quick-pomelo `Area` component

Shallow embedding of `src/lib/components/area/index.js`.

An `Area` owns a `players` association map (`PlayerId → Player`), a table
`playerEventHandlers` of registered per-player event handlers, a broadcast
channel membership list, and interacts with an external player-manager
("Ledger") that tracks which player locks this area holds.

External calls (ledger acquire/release/load/save, player start/stop/destroy,
hooks) are modelled by an `Env` of boolean outcome flags; every operation
returns an `Out`: the `Except`-style result, the updated state, and the trace
of issued effects.  The ledger's own state (the set of locks held by this
area) is carried in `St.locks`, so that `getAcquiredPlayerIds` returns the
authoritative set.
-/

namespace QuickPomelo

abbrev PlayerId := String

abbrev Uid := String

/-- A player instance as stored in `this.players` (only its `_id` matters to
the area logic modelled here). -/
structure Player where
  pid : PlayerId
deriving Repr, DecidableEq

/-- The three player events wired by `registerPlayerEvents`:
`connect`, `disconnect`, `notify`. -/
inductive Ev
  | connect
  | disconnect
  | notify
deriving Repr, DecidableEq

/-- Effects issued by area operations, in order: external calls, hook
invocations, channel pushes, and log lines. -/
inductive Eff
  | acquire (p : PlayerId)
  | release (p : PlayerId)
  | load (p : PlayerId)
  | save (p : PlayerId)
  | loadAll
  | fetchAcquired
  | pstart (p : PlayerId)
  | pstop (p : PlayerId)
  | pdestroy (p : PlayerId)
  | sub (p : PlayerId) (e : Ev)
  | unsub (p : PlayerId) (e : Ev)
  | hookBeforeJoin
  | hookOnJoin (p : PlayerId)
  | hookBeforeQuit (p : PlayerId)
  | hookOnQuit (p : PlayerId)
  | hookOnStop
  | hookOnDestroy
  | hookOnDeserialize
  | pushAll (route msg : String)
  | pushUids (route msg : String) (uids : List (Option Uid))
  | destroyChannel
  | logWarn (s : String)
deriving Repr, DecidableEq

/-- Area state: `players` (JS object, assoc list keyed by id),
`handlers` (registered (player, event) pairs from `playerEventHandlers`),
`channel` (broadcast-group members), and `locks` (the ledger's record of
player locks held by this area). -/
structure St where
  players : List (PlayerId × Player)
  handlers : List (PlayerId × Ev)
  channel : List (PlayerId × Uid)
  locks : List PlayerId
deriving Repr, DecidableEq

/-- Outcomes of the external collaborators and optional hooks. -/
structure Env where
  acquireOk : PlayerId → Bool
  releaseOk : PlayerId → Bool
  loadOk : PlayerId → Bool
  saveOk : PlayerId → Bool
  startOk : PlayerId → Bool
  stopOk : PlayerId → Bool
  destroyOk : PlayerId → Bool
  beforeJoinOk : Bool
  beforeQuitOk : PlayerId → Bool
  onJoinOk : PlayerId → Bool
  onQuitOk : PlayerId → Bool
  onStopOk : Bool
  onDestroyOk : Bool
  onDeserializeOk : Bool
  fetchOk : Bool
  loadAllOk : Bool
  loadAllPlayers : List Player

/-- Result of one area operation: result, post-state, effect trace. -/
structure Out where
  res : Except String Unit
  st : St
  tr : List Eff
deriving Repr

instance : DecidableEq (Except String Unit) := fun a b =>
  match a, b with
  | Except.ok (), Except.ok () => isTrue rfl
  | Except.error x, Except.error y =>
    if h : x = y then isTrue (by rw [h]) else isFalse (by intro hc; cases hc; exact h rfl)
  | Except.ok _, Except.error _ => isFalse (by intro hc; cases hc)
  | Except.error _, Except.ok _ => isFalse (by intro hc; cases hc)

instance : DecidableEq Out := fun a b => by
  cases a; cases b
  rename_i r1 s1 t1 r2 s2 t2
  exact if h : r1 = r2 ∧ s1 = s2 ∧ t1 = t2 then
    isTrue (by obtain ⟨h1, h2, h3⟩ := h; rw [h1, h2, h3])
  else
    isFalse (by intro hc; cases hc; exact h ⟨rfl, rfl, rfl⟩)

/-- Lookup in a JS-object-style association list (`this.players[k]`). -/
def aget : List (PlayerId × Player) → PlayerId → Option Player
  | [], _ => none
  | (k', v) :: t, k => if k' = k then some v else aget t k

/-- Assignment `this.players[k] = v`: replace in place, or append if absent. -/
def aset : List (PlayerId × Player) → PlayerId → Player → List (PlayerId × Player)
  | [], k, v => [(k, v)]
  | (k', v') :: t, k, v => if k' = k then (k, v) :: t else (k', v') :: aset t k v

/-- Deletion `delete this.players[k]`. -/
def adel (l : List (PlayerId × Player)) (k : PlayerId) : List (PlayerId × Player) :=
  l.filter (fun e => e.1 ≠ k)

/-- Key list `Object.keys(this.players)`. -/
def keys (s : St) : List PlayerId :=
  s.players.map Prod.fst

/-- Member lookup `channel.getMember(playerId)`. -/
def lookupUid : List (PlayerId × Uid) → PlayerId → Option Uid
  | [], _ => none
  | (k', v) :: t, k => if k' = k then some v else lookupUid t k

/-- Source `registerPlayerEvent(playerId, event, handler)`: `getPlayer` throws when
the player is absent; a duplicate registration is logged and skipped;
otherwise the handler is recorded. -/
def registerPlayerEvent (s : St) (p : PlayerId) (ev : Ev) : Except String (St × List Eff) :=
  if (aget s.players p).isNone then
    Except.error ("player " ++ p ++ " not in area")
  else if (p, ev) ∈ s.handlers then
    Except.ok (s, [Eff.logWarn "event already registered"])
  else
    Except.ok ({ s with handlers := s.handlers ++ [(p, ev)] }, [Eff.sub p ev])

/-- Source `removePlayerEvent(playerId, event)`: `getPlayer` throws when the player
is absent; an unregistered event is logged and skipped; otherwise the handler
is removed. -/
def removePlayerEvent (s : St) (p : PlayerId) (ev : Ev) : Except String (St × List Eff) :=
  if (aget s.players p).isNone then
    Except.error ("player " ++ p ++ " not in area")
  else if (p, ev) ∈ s.handlers then
    Except.ok ({ s with handlers := s.handlers.filter (fun pe => pe ≠ (p, ev)) },
      [Eff.unsub p ev])
  else
    Except.ok (s, [Eff.logWarn "event not registered"])

/-- Source `registerPlayerEvents(playerId)`: wires `connect`, `disconnect`,
`notify` in that order. -/
def registerPlayerEvents (s : St) (p : PlayerId) : Except String (St × List Eff) :=
  match registerPlayerEvent s p Ev.connect with
  | Except.error e => Except.error e
  | Except.ok (s1, t1) =>
    match registerPlayerEvent s1 p Ev.disconnect with
    | Except.error e => Except.error e
    | Except.ok (s2, t2) =>
      match registerPlayerEvent s2 p Ev.notify with
      | Except.error e => Except.error e
      | Except.ok (s3, t3) => Except.ok (s3, t1 ++ t2 ++ t3)

/-- Source `removePlayerEvents(playerId)`: unwires `connect`, `disconnect`,
`notify` in that order. -/
def removePlayerEvents (s : St) (p : PlayerId) : Except String (St × List Eff) :=
  match removePlayerEvent s p Ev.connect with
  | Except.error e => Except.error e
  | Except.ok (s1, t1) =>
    match removePlayerEvent s1 p Ev.disconnect with
    | Except.error e => Except.error e
    | Except.ok (s2, t2) =>
      match removePlayerEvent s2 p Ev.notify with
      | Except.error e => Except.error e
      | Except.ok (s3, t3) => Except.ok (s3, t1 ++ t2 ++ t3)

/-- The `catch` handler of `join`'s inner chain (source lines 197–204):
delete `playerId` from `players` if present, issue a best-effort
`releasePlayer` whose own failure is only logged, and re-raise the original
error `e`. -/
def joinRollback (env : Env) (p : PlayerId) (s : St) (e : String) : Out :=
  let s1 : St := { s with players := adel s.players p }
  if env.releaseOk p then
    ⟨Except.error e, { s1 with locks := s1.locks.filter (fun q => q ≠ p) }, [Eff.release p]⟩
  else
    ⟨Except.error e, s1, [Eff.release p, Eff.logWarn "release failed"]⟩

/-- Source `join(playerId)` (lines 183–216): acquire the lock, then
`beforeJoin` → `loadPlayer` → insert into `players`, with the rollback
`catch` covering exactly those three steps; then `registerPlayerEvents`,
`player.start()` and the `onJoin` hook, whose failures propagate without
rollback. -/
def join (env : Env) (p : PlayerId) (s : St) : Out :=
  if env.acquireOk p = false then
    ⟨Except.error "acquire failed", s, [Eff.acquire p]⟩
  else
    let s0 : St := { s with locks := if p ∈ s.locks then s.locks else s.locks ++ [p] }
    if env.beforeJoinOk = false then
      let o := joinRollback env p s0 "beforeJoin failed"
      ⟨o.res, o.st, Eff.acquire p :: Eff.hookBeforeJoin :: o.tr⟩
    else if env.loadOk p = false then
      let o := joinRollback env p s0 "loadPlayer failed"
      ⟨o.res, o.st, Eff.acquire p :: Eff.hookBeforeJoin :: Eff.load p :: o.tr⟩
    else
      let s1 : St := { s0 with players := aset s0.players p ⟨p⟩ }
      match registerPlayerEvents s1 p with
      | Except.error e =>
        ⟨Except.error e, s1, [Eff.acquire p, Eff.hookBeforeJoin, Eff.load p]⟩
      | Except.ok (s2, t2) =>
        let base := [Eff.acquire p, Eff.hookBeforeJoin, Eff.load p] ++ t2
        if env.startOk p = false then
          ⟨Except.error "player start failed", s2, base ++ [Eff.pstart p]⟩
        else if env.onJoinOk p = false then
          ⟨Except.error "onJoin failed", s2, base ++ [Eff.pstart p, Eff.hookOnJoin p]⟩
        else
          ⟨Except.ok (), s2, base ++ [Eff.pstart p, Eff.hookOnJoin p]⟩

/-- Options of `quit`: `opts.force` and `opts.remove`. -/
structure QOpts where
  force : Bool
  remove : Bool
deriving Repr, DecidableEq

/-- Source `quit(playerId, opts)` (lines 220–260).  Absent player: warn and
return.  `opts.force`: unwire events, delete from `players`, nothing else.
Normal path: `beforeQuit` → unwire events, `player.stop()` →
(`player.destroy()` when `opts.remove`, else `savePlayer`) →
`releasePlayer` → delete from `players` → `onQuit`; a failure anywhere
propagates and stops the chain there. -/
def quit (env : Env) (p : PlayerId) (opts : QOpts) (s : St) : Out :=
  match aget s.players p with
  | none => ⟨Except.ok (), s, [Eff.logWarn "player not in area"]⟩
  | some _ =>
    if opts.force then
      match removePlayerEvents s p with
      | Except.error e => ⟨Except.error e, s, []⟩
      | Except.ok (s1, t1) =>
        ⟨Except.ok (), { s1 with players := adel s1.players p },
          t1 ++ [Eff.logWarn "quit by force"]⟩
    else if env.beforeQuitOk p = false then
      ⟨Except.error "beforeQuit failed", s, [Eff.hookBeforeQuit p]⟩
    else
      match removePlayerEvents s p with
      | Except.error e => ⟨Except.error e, s, [Eff.hookBeforeQuit p]⟩
      | Except.ok (s1, t1) =>
        if env.stopOk p = false then
          ⟨Except.error "player stop failed", s1,
            Eff.hookBeforeQuit p :: (t1 ++ [Eff.pstop p])⟩
        else
          let persistEff := if opts.remove then Eff.pdestroy p else Eff.save p
          let persistOk := if opts.remove then env.destroyOk p else env.saveOk p
          let base := Eff.hookBeforeQuit p :: (t1 ++ [Eff.pstop p, persistEff])
          if persistOk = false then
            ⟨Except.error (if opts.remove then "player destroy failed" else "savePlayer failed"),
              s1, base⟩
          else if env.releaseOk p = false then
            ⟨Except.error "release failed", s1, base ++ [Eff.release p]⟩
          else
            let s2 : St := { s1 with
              players := adel s1.players p,
              locks := s1.locks.filter (fun q => q ≠ p) }
            if env.onQuitOk p = false then
              ⟨Except.error "onQuit failed", s2, base ++ [Eff.release p, Eff.hookOnQuit p]⟩
            else
              ⟨Except.ok (), s2, base ++ [Eff.release p, Eff.hookOnQuit p]⟩

/-- First correction pass of `syncAcquiredPlayers` (source lines 155–164):
for each acquired id not in local `players`, release the lock; a release
failure is caught and logged, never propagated. -/
def syncReleasePass (env : Env) : List PlayerId → St → St × List Eff
  | [], s => (s, [])
  | p :: rest, s =>
    if (aget s.players p).isSome then syncReleasePass env rest s
    else
      let step : St × List Eff :=
        if env.releaseOk p then
          ({ s with locks := s.locks.filter (fun q => q ≠ p) }, [Eff.release p])
        else
          (s, [Eff.release p, Eff.logWarn "release failed"])
      let next := syncReleasePass env rest step.1
      (next.1, step.2 ++ next.2)

/-- Second correction pass of `syncAcquiredPlayers` (source lines 166–175):
for each local player id not in the acquired set `aIds` (snapshotted key
list `ks`), force-quit it; failures are caught and logged. -/
def syncQuitPass (env : Env) (aIds : List PlayerId) : List PlayerId → St → St × List Eff
  | [], s => (s, [])
  | p :: rest, s =>
    if p ∈ aIds then syncQuitPass env aIds rest s
    else
      let o := quit env p ⟨true, false⟩ s
      let extra : List Eff :=
        match o.res with
        | Except.ok _ => []
        | Except.error _ => [Eff.logWarn "force quit failed"]
      let next := syncQuitPass env aIds rest o.st
      (next.1, (o.tr ++ extra) ++ next.2)

/-- Source `syncAcquiredPlayers()` (lines 143–181): fetch the authoritative
acquired id set from the ledger (only this fetch's failure propagates), then
run both correction passes and wait for all of them to settle; the overall
result is success. -/
def syncAcquiredPlayers (env : Env) (s : St) : Out :=
  if env.fetchOk = false then
    ⟨Except.error "getAcquiredPlayerIds failed", s, [Eff.fetchAcquired]⟩
  else
    let aIds := s.locks
    let r1 := syncReleasePass env aIds s
    let r2 := syncQuitPass env aIds (keys s) r1.1
    ⟨Except.ok (), r2.1, Eff.fetchAcquired :: (r1.2 ++ r2.2)⟩

/-- The unwire loop of `stop` (source lines 97–99): `removePlayerEvents`
over the player key list. -/
def removeAllPlayerEvents (s : St) : List PlayerId → Except String (St × List Eff)
  | [] => Except.ok (s, [])
  | p :: rest =>
    match removePlayerEvents s p with
    | Except.error e => Except.error e
    | Except.ok (s1, t1) =>
      match removeAllPlayerEvents s1 rest with
      | Except.error e => Except.error e
      | Except.ok (s2, t2) => Except.ok (s2, t1 ++ t2)

/-- Source `stopPlayers()` (lines 300–308): `Q.all` over `player.stop()` for
every held player — every stop is invoked; the aggregate fails as soon as
any one fails. -/
def stopPlayers (env : Env) (s : St) : Except String Unit × List Eff :=
  ((if (keys s).all env.stopOk then Except.ok () else Except.error "player stop failed"),
    (keys s).map Eff.pstop)

/-- Source `stop()` (lines 90–107): `onStop` hook, then unwire every held
player's events, then `stopPlayers()`, then destroy the channel; a failure
anywhere propagates and stops the chain there. -/
def stop (env : Env) (s : St) : Out :=
  if env.onStopOk = false then
    ⟨Except.error "onStop failed", s, [Eff.hookOnStop]⟩
  else
    match removeAllPlayerEvents s (keys s) with
    | Except.error e => ⟨Except.error e, s, [Eff.hookOnStop]⟩
    | Except.ok (s1, t1) =>
      let r := stopPlayers env s1
      match r.1 with
      | Except.error e => ⟨Except.error e, s1, Eff.hookOnStop :: (t1 ++ r.2)⟩
      | Except.ok _ =>
        ⟨Except.ok (), { s1 with channel := [] },
          Eff.hookOnStop :: (t1 ++ r.2) ++ [Eff.destroyChannel]⟩

/-- Source `destroy()` (lines 53–67): throws `'Ares is not empty'` while
`players` is non-empty, before ever reaching the `onDestroy` hook; with an
empty `players` it invokes the hook and succeeds iff the hook does. -/
def destroy (env : Env) (s : St) : Out :=
  if s.players.isEmpty = false then
    ⟨Except.error "Ares is not empty", s, []⟩
  else if env.onDestroyOk then
    ⟨Except.ok (), s, [Eff.hookOnDestroy]⟩
  else
    ⟨Except.error "onDestroy failed", s, [Eff.hookOnDestroy]⟩

/-- Source `loadPlayers()` (lines 262–273): reset `players` to `{}` first,
then bulk-load the acquired players; on success each loaded player is stored
under its `_id`. -/
def loadPlayers (env : Env) (s : St) : Out :=
  let s1 : St := { s with players := [] }
  if env.loadAllOk = false then
    ⟨Except.error "loadAcquiredPlayers failed", s1, [Eff.loadAll]⟩
  else
    ⟨Except.ok (),
      { s1 with players := env.loadAllPlayers.foldl (fun ps pl => aset ps pl.pid pl) [] },
      [Eff.loadAll]⟩

/-- Source `deserialize(doc)` (lines 125–137): `loadPlayers()` then the
`onDeserialize` hook. -/
def deserialize (env : Env) (s : St) : Out :=
  let o := loadPlayers env s
  match o.res with
  | Except.error e => ⟨Except.error e, o.st, o.tr⟩
  | Except.ok _ =>
    if env.onDeserializeOk then
      ⟨Except.ok (), o.st, o.tr ++ [Eff.hookOnDeserialize]⟩
    else
      ⟨Except.error "onDeserialize failed", o.st, o.tr ++ [Eff.hookOnDeserialize]⟩

/-- The `target` argument of `notify`: absent (`undefined`/`null`), a single
id string, or an array of ids.  In JS, `!target` holds for the absent cases
and for the empty string, while an array — even `[]` — is truthy. -/
inductive NotifyTarget
  | absent
  | single (p : PlayerId)
  | many (ps : List PlayerId)
deriving Repr, DecidableEq

/-- Source `notifyAll(route, msg)` (lines 367–370). -/
def notifyAll (route msg : String) : List Eff :=
  [Eff.pushAll route msg]

/-- Source `notify(playerIds, route, msg)` (lines 372–388): falsy target →
broadcast; otherwise wrap a single id into an array, resolve each id through
`channel.getMember` and push only to those. -/
def notify (s : St) (t : NotifyTarget) (route msg : String) : List Eff :=
  match t with
  | NotifyTarget.absent => notifyAll route msg
  | NotifyTarget.single p =>
    if p = "" then notifyAll route msg
    else [Eff.pushUids route msg [lookupUid s.channel p]]
  | NotifyTarget.many ps =>
    [Eff.pushUids route msg (ps.map (lookupUid s.channel))]

/-- Handler pairs of player `p` removed (the composite effect of
`removePlayerEvents`, since `connect`, `disconnect`, `notify` exhaust `Ev`). -/
def hdel (hs : List (PlayerId × Ev)) (p : PlayerId) : List (PlayerId × Ev) :=
  hs.filter (fun pe => pe.1 ≠ p)

/-- The invariant of claim C7: handlers are registered exactly for the
currently held players (all three events each), and never for an absent id. -/
def eventInv (s : St) : Prop :=
  (∀ p ∈ keys s,
    (p, Ev.connect) ∈ s.handlers ∧ (p, Ev.disconnect) ∈ s.handlers ∧
      (p, Ev.notify) ∈ s.handlers)
  ∧ (∀ pe ∈ s.handlers, pe.1 ∈ keys s)

instance (s : St) : Decidable (eventInv s) := by
  unfold eventInv
  infer_instance

theorem aget_isSome_iff {l : List (PlayerId × Player)} {p : PlayerId} :
    (aget l p).isSome = true ↔ p ∈ l.map Prod.fst := by
  induction l with
  | nil => simp [aget]
  | cons e t ih =>
    obtain ⟨k, v⟩ := e
    by_cases h : k = p
    · subst h; simp [aget]
    · simp only [aget, if_neg h, List.map_cons, List.mem_cons, ih]
      constructor
      · exact fun hm => Or.inr hm
      · rintro (hm | hm)
        · exact absurd hm.symm h
        · exact hm

theorem aget_eq_none_iff {l : List (PlayerId × Player)} {p : PlayerId} :
    aget l p = none ↔ p ∉ l.map Prod.fst := by
  rw [← aget_isSome_iff]
  cases h : aget l p <;> simp [h]

theorem aget_adel_self (l : List (PlayerId × Player)) (p : PlayerId) :
    aget (adel l p) p = none := by
  induction l with
  | nil => rfl
  | cons e t ih =>
    obtain ⟨k, v⟩ := e
    by_cases hk : k = p
    · subst hk
      simpa [adel, List.filter_cons] using ih
    · simpa [adel, List.filter_cons, hk, aget] using ih

theorem aget_adel_ne (l : List (PlayerId × Player)) {p q : PlayerId} (h : q ≠ p) :
    aget (adel l p) q = aget l q := by
  induction l with
  | nil => rfl
  | cons e t ih =>
    obtain ⟨k, v⟩ := e
    by_cases hk : k = p
    · subst hk
      have hkq : ¬ (k = q) := fun hc => h (by rw [hc])
      simpa [adel, List.filter_cons, aget, hkq] using ih
    · simp only [adel, ne_eq, decide_not] at ih ⊢
      simp [List.filter_cons, hk, aget, ih]

theorem aget_adel (l : List (PlayerId × Player)) (p q : PlayerId) :
    aget (adel l p) q = if q = p then none else aget l q := by
  by_cases h : q = p
  · subst h; simp [aget_adel_self]
  · simp [h, aget_adel_ne l h]

theorem mem_keys_adel {l : List (PlayerId × Player)} {p q : PlayerId} :
    q ∈ (adel l p).map Prod.fst ↔ q ∈ l.map Prod.fst ∧ q ≠ p := by
  rw [← aget_isSome_iff, aget_adel]
  by_cases h : q = p
  · simp [h]
  · simp [h, aget_isSome_iff]

theorem aset_fresh {l : List (PlayerId × Player)} {p : PlayerId} (v : Player)
    (h : p ∉ l.map Prod.fst) : aset l p v = l ++ [(p, v)] := by
  induction l with
  | nil => rfl
  | cons e t ih =>
    obtain ⟨k, w⟩ := e
    simp only [List.map_cons, List.mem_cons] at h
    push_neg at h
    have hk : ¬ (k = p) := fun hkp => h.1 hkp.symm
    simp only [aset, if_neg hk, List.cons_append, List.cons.injEq, true_and]
    exact ih h.2

theorem adel_of_not_mem {l : List (PlayerId × Player)} {p : PlayerId}
    (h : p ∉ l.map Prod.fst) : adel l p = l := by
  unfold adel
  apply List.filter_eq_self.mpr
  intro a ha
  simp only [ne_eq, decide_not, Bool.not_eq_true', decide_eq_false_iff_not]
  intro hc
  exact h (hc ▸ List.mem_map_of_mem Prod.fst ha)

theorem mem_hdel {hs : List (PlayerId × Ev)} {p : PlayerId} {pe : PlayerId × Ev} :
    pe ∈ hdel hs p ↔ pe ∈ hs ∧ pe.1 ≠ p := by
  simp [hdel, List.mem_filter]

theorem hdel_of_all_ne {hs : List (PlayerId × Ev)} {p : PlayerId}
    (h : ∀ pe ∈ hs, pe.1 ≠ p) : hdel hs p = hs := by
  unfold hdel
  apply List.filter_eq_self.mpr
  intro a ha
  simpa using h a ha

theorem removePlayerEvent_ok (s : St) (p : PlayerId) (ev : Ev)
    (h : (aget s.players p).isSome = true) :
    ∃ t, removePlayerEvent s p ev =
      Except.ok ({ s with handlers := s.handlers.filter (fun pe => pe ≠ (p, ev)) }, t) ∧
      ∀ e ∈ t, e = Eff.unsub p ev ∨ ∃ m, e = Eff.logWarn m := by
  have hn : (aget s.players p).isNone = false := by
    cases hc : aget s.players p with
    | none => rw [hc] at h; simp at h
    | some v => simp
  unfold removePlayerEvent
  rw [hn]
  simp only [Bool.false_eq_true, if_false]
  by_cases hm : (p, ev) ∈ s.handlers
  · exact ⟨[Eff.unsub p ev], by simp [hm]⟩
  · refine ⟨[Eff.logWarn "event not registered"], ?_, by simp⟩
    rw [if_neg hm]
    have : s.handlers.filter (fun pe => pe ≠ (p, ev)) = s.handlers := by
      apply List.filter_eq_self.mpr
      intro a ha
      simp only [ne_eq, decide_not, Bool.not_eq_true', decide_eq_false_iff_not]
      intro hc
      exact hm (hc ▸ ha)
    rw [this]

theorem filter3_eq_hdel (hs : List (PlayerId × Ev)) (p : PlayerId) :
    ((hs.filter (fun pe => pe ≠ (p, Ev.connect))).filter
        (fun pe => pe ≠ (p, Ev.disconnect))).filter (fun pe => pe ≠ (p, Ev.notify))
      = hdel hs p := by
  rw [List.filter_filter, List.filter_filter]
  apply List.filter_congr
  intro pe _
  obtain ⟨q, ev⟩ := pe
  by_cases hq : q = p
  · subst hq; cases ev <;> simp
  · simp [hq]

theorem removePlayerEvents_ok (s : St) (p : PlayerId)
    (h : (aget s.players p).isSome = true) :
    ∃ t, removePlayerEvents s p =
      Except.ok ({ s with handlers := hdel s.handlers p }, t) ∧
      ∀ e ∈ t, (∃ ev, e = Eff.unsub p ev) ∨ ∃ m, e = Eff.logWarn m := by
  obtain ⟨t1, he1, ht1⟩ := removePlayerEvent_ok s p Ev.connect h
  set s1 : St := { s with handlers := s.handlers.filter (fun pe => pe ≠ (p, Ev.connect)) }
    with hs1
  obtain ⟨t2, he2, ht2⟩ := removePlayerEvent_ok s1 p Ev.disconnect h
  set s2 : St := { s1 with handlers := s1.handlers.filter (fun pe => pe ≠ (p, Ev.disconnect)) }
    with hs2
  obtain ⟨t3, he3, ht3⟩ := removePlayerEvent_ok s2 p Ev.notify h
  refine ⟨t1 ++ t2 ++ t3, ?_, ?_⟩
  · have hfin : ({ s2 with handlers := s2.handlers.filter (fun pe => pe ≠ (p, Ev.notify)) } : St)
        = { s with handlers := hdel s.handlers p } := by
      simp only [hs2, hs1]
      rw [St.mk.injEq]
      exact ⟨rfl, filter3_eq_hdel s.handlers p, rfl, rfl⟩
    simp only [removePlayerEvents, he1, he2, he3, hfin]
  · intro e he
    rcases List.mem_append.mp he with he' | he'
    · rcases List.mem_append.mp he' with he'' | he''
      · rcases ht1 e he'' with h' | h'
        · exact Or.inl ⟨Ev.connect, h'⟩
        · exact Or.inr h'
      · rcases ht2 e he'' with h' | h'
        · exact Or.inl ⟨Ev.disconnect, h'⟩
        · exact Or.inr h'
    · rcases ht3 e he' with h' | h'
      · exact Or.inl ⟨Ev.notify, h'⟩
      · exact Or.inr h'

theorem removePlayerEvent_reg (s : St) (p : PlayerId) (ev : Ev)
    (h : (aget s.players p).isSome = true) (hm : (p, ev) ∈ s.handlers) :
    removePlayerEvent s p ev =
      Except.ok ({ s with handlers := s.handlers.filter (fun pe => pe ≠ (p, ev)) },
        [Eff.unsub p ev]) := by
  have hn : (aget s.players p).isNone = false := by
    cases hc : aget s.players p with
    | none => rw [hc] at h; simp at h
    | some v => simp
  unfold removePlayerEvent
  rw [hn]
  simp [hm]

theorem removePlayerEvents_reg (s : St) (p : PlayerId)
    (h : (aget s.players p).isSome = true)
    (h1 : (p, Ev.connect) ∈ s.handlers) (h2 : (p, Ev.disconnect) ∈ s.handlers)
    (h3 : (p, Ev.notify) ∈ s.handlers) :
    removePlayerEvents s p =
      Except.ok ({ s with handlers := hdel s.handlers p },
        [Eff.unsub p Ev.connect, Eff.unsub p Ev.disconnect, Eff.unsub p Ev.notify]) := by
  set s1 : St := { s with handlers := s.handlers.filter (fun pe => pe ≠ (p, Ev.connect)) }
    with hs1
  have h2' : (p, Ev.disconnect) ∈ s1.handlers := by
    simp only [hs1, List.mem_filter]
    exact ⟨h2, by simp⟩
  set s2 : St := { s1 with handlers := s1.handlers.filter (fun pe => pe ≠ (p, Ev.disconnect)) }
    with hs2
  have h3' : (p, Ev.notify) ∈ s2.handlers := by
    simp only [hs2, hs1, List.mem_filter]
    exact ⟨⟨h3, by simp⟩, by simp⟩
  have hfin : ({ s2 with handlers := s2.handlers.filter (fun pe => pe ≠ (p, Ev.notify)) } : St)
      = { s with handlers := hdel s.handlers p } := by
    simp only [hs2, hs1]
    rw [St.mk.injEq]
    exact ⟨rfl, filter3_eq_hdel s.handlers p, rfl, rfl⟩
  simp only [removePlayerEvents, removePlayerEvent_reg s p Ev.connect h h1,
    removePlayerEvent_reg s1 p Ev.disconnect h h2',
    removePlayerEvent_reg s2 p Ev.notify h h3', hfin]
  rfl

theorem registerPlayerEvent_fresh (s : St) (p : PlayerId) (ev : Ev)
    (h : (aget s.players p).isSome = true) (hm : (p, ev) ∉ s.handlers) :
    registerPlayerEvent s p ev =
      Except.ok ({ s with handlers := s.handlers ++ [(p, ev)] }, [Eff.sub p ev]) := by
  have hn : (aget s.players p).isNone = false := by
    cases hc : aget s.players p with
    | none => rw [hc] at h; simp at h
    | some v => simp
  unfold registerPlayerEvent
  rw [hn]
  simp [hm]

theorem registerPlayerEvents_fresh (s : St) (p : PlayerId)
    (h : (aget s.players p).isSome = true)
    (hm : ∀ ev, (p, ev) ∉ s.handlers) :
    registerPlayerEvents s p =
      Except.ok ({ s with handlers :=
          s.handlers ++ [(p, Ev.connect), (p, Ev.disconnect), (p, Ev.notify)] },
        [Eff.sub p Ev.connect, Eff.sub p Ev.disconnect, Eff.sub p Ev.notify]) := by
  set s1 : St := { s with handlers := s.handlers ++ [(p, Ev.connect)] } with hs1
  have hm2 : (p, Ev.disconnect) ∉ s1.handlers := by
    simp only [hs1, List.mem_append, List.mem_singleton]
    rintro (hc | hc)
    · exact hm Ev.disconnect hc
    · cases hc
  set s2 : St := { s1 with handlers := s1.handlers ++ [(p, Ev.disconnect)] } with hs2
  have hm3 : (p, Ev.notify) ∉ s2.handlers := by
    simp only [hs2, hs1, List.mem_append, List.mem_singleton]
    rintro ((hc | hc) | hc)
    · exact hm Ev.notify hc
    · cases hc
    · cases hc
  have hfin : ({ s2 with handlers := s2.handlers ++ [(p, Ev.notify)] } : St)
      = { s with handlers :=
          s.handlers ++ [(p, Ev.connect), (p, Ev.disconnect), (p, Ev.notify)] } := by
    simp only [hs2, hs1]
    rw [St.mk.injEq]
    refine ⟨rfl, ?_, rfl, rfl⟩
    simp
  simp only [registerPlayerEvents, registerPlayerEvent_fresh s p Ev.connect h (hm Ev.connect),
    registerPlayerEvent_fresh s1 p Ev.disconnect h hm2,
    registerPlayerEvent_fresh s2 p Ev.notify h hm3, hfin]
  rfl

/-! ### Concrete fixtures used by counterexamples and witnesses -/

/-- An environment in which every external call and hook succeeds. -/
def envAllOk : Env :=
  { acquireOk := fun _ => true
    releaseOk := fun _ => true
    loadOk := fun _ => true
    saveOk := fun _ => true
    startOk := fun _ => true
    stopOk := fun _ => true
    destroyOk := fun _ => true
    beforeJoinOk := true
    beforeQuitOk := fun _ => true
    onJoinOk := fun _ => true
    onQuitOk := fun _ => true
    onStopOk := true
    onDestroyOk := true
    onDeserializeOk := true
    fetchOk := true
    loadAllOk := true
    loadAllPlayers := [] }

/-- The empty area state. -/
def st0 : St := ⟨[], [], [], []⟩

/-- An area holding player `p1`, fully wired, with its lock held. -/
def stP1 : St :=
  ⟨[("p1", ⟨"p1"⟩)],
   [("p1", Ev.connect), ("p1", Ev.disconnect), ("p1", Ev.notify)],
   [], ["p1"]⟩

/-! ### C1: rollback guarantee of `join` -/

/-- Environment where `player.start()` fails and everything else succeeds. -/
def envStartFail : Env := { envAllOk with startOk := fun _ => false }

/-- C1 counterexample: with the lock acquired and `beforeJoin`/`loadPlayer`
succeeding, a failure of `player.start()` makes `join("p1")` fail, yet
`"p1"` is left in `players` and no lock-release attempt is issued — the
rollback `catch` does not cover the steps after the player is inserted. -/
theorem C1_counterexample :
    (join envStartFail "p1" st0).res = Except.error "player start failed" ∧
    (aget (join envStartFail "p1" st0).st.players "p1").isSome = true ∧
    Eff.release "p1" ∉ (join envStartFail "p1" st0).tr := by decide

/-- C1 (amended): if `join(p)` fails during `beforeJoin` or the snapshot
load — the steps covered by the rollback handler — then `p` is absent from
`players` afterwards, a best-effort lock-release attempt is issued (whatever
its own outcome, which is only logged), and the original error is re-raised;
failures after the player is inserted (event wiring, `player.start()`,
`onJoin`) propagate without this rollback. -/
theorem C1_join_rollback_on_early_failure (env : Env) (s : St) (p : PlayerId)
    (hacq : env.acquireOk p = true)
    (hfail : env.beforeJoinOk = false ∨ env.loadOk p = false) :
    ((join env p s).res = Except.error "beforeJoin failed" ∨
      (join env p s).res = Except.error "loadPlayer failed") ∧
    aget (join env p s).st.players p = none ∧
    Eff.release p ∈ (join env p s).tr := by
  by_cases hbj : env.beforeJoinOk = false
  · by_cases hrel : env.releaseOk p <;>
      simp [join, joinRollback, hacq, hbj, hrel, aget_adel_self]
  · have hload : env.loadOk p = false := hfail.resolve_left hbj
    simp only [Bool.not_eq_false] at hbj
    by_cases hrel : env.releaseOk p <;>
      simp [join, joinRollback, hacq, hbj, hload, hrel, aget_adel_self]

/-- Environment where the snapshot load and the lock release both fail. -/
def envLoadRelFail : Env :=
  { envAllOk with loadOk := fun _ => false, releaseOk := fun _ => false }

/-- Witness for C1's amended theorem: concrete failed join at snapshot-load,
with the release attempt itself failing and the original error re-raised. -/
theorem C1_join_rollback_witness :
    envLoadRelFail.acquireOk "p1" = true ∧
    (envLoadRelFail.beforeJoinOk = false ∨ envLoadRelFail.loadOk "p1" = false) ∧
    (((join envLoadRelFail "p1" st0).res = Except.error "beforeJoin failed" ∨
        (join envLoadRelFail "p1" st0).res = Except.error "loadPlayer failed") ∧
      aget (join envLoadRelFail "p1" st0).st.players "p1" = none ∧
      Eff.release "p1" ∈ (join envLoadRelFail "p1" st0).tr) :=
  ⟨by decide, by decide,
    C1_join_rollback_on_early_failure envLoadRelFail st0 "p1" (by decide) (by decide)⟩

/-! ### C4: forced quit -/

/-- C4: `quit(p, {force:true})` never fails: it issues no ledger call, no
persistence and no hook (its trace holds only unsubscriptions and log
lines); if `p` is held it is removed from `players` with its events
unsubscribed, and if `p` is absent the state is untouched. -/
theorem C4_force_quit_total (env : Env) (s : St) (p : PlayerId) (r : Bool) :
    (quit env p ⟨true, r⟩ s).res = Except.ok () ∧
    aget (quit env p ⟨true, r⟩ s).st.players p = none ∧
    (∀ e ∈ (quit env p ⟨true, r⟩ s).tr,
      (∃ ev, e = Eff.unsub p ev) ∨ ∃ m, e = Eff.logWarn m) ∧
    (aget s.players p = none → (quit env p ⟨true, r⟩ s).st = s) ∧
    ((aget s.players p).isSome = true →
      (quit env p ⟨true, r⟩ s).st.players = adel s.players p ∧
      (quit env p ⟨true, r⟩ s).st.handlers = hdel s.handlers p ∧
      (quit env p ⟨true, r⟩ s).st.locks = s.locks ∧
      (quit env p ⟨true, r⟩ s).st.channel = s.channel) := by
  cases hc : aget s.players p with
  | none =>
    refine ⟨?_, ?_, ?_, ?_, ?_⟩
    · simp [quit, hc]
    · simp [quit, hc]
    · intro e he
      simp only [quit, hc] at he
      simp only [List.mem_singleton] at he
      exact Or.inr ⟨_, he⟩
    · intro _
      simp [quit, hc]
    · intro h
      simp at h
  | some v =>
    have hsm : (aget s.players p).isSome = true := by rw [hc]; rfl
    obtain ⟨t, he, ht⟩ := removePlayerEvents_ok s p hsm
    refine ⟨?_, ?_, ?_, ?_, ?_⟩
    · simp [quit, hc, he]
    · simp only [quit, hc, he]
      exact aget_adel_self _ _
    · intro e hmem
      simp only [quit, hc, he] at hmem
      rcases List.mem_append.mp hmem with h' | h'
      · exact ht e h'
      · simp only [List.mem_singleton] at h'
        exact Or.inr ⟨_, h'⟩
    · intro h
      simp at h
    · intro _
      simp only [quit, hc, he]
      exact ⟨rfl, rfl, rfl, rfl⟩

/-- Witness for C4: forced quit of a held player with the ledger entirely
unavailable still succeeds and removes the player; forced quit of an absent
player is a no-op. -/
theorem C4_force_quit_witness :
    (quit envLoadRelFail "p1" ⟨true, false⟩ stP1).res = Except.ok () ∧
    aget (quit envLoadRelFail "p1" ⟨true, false⟩ stP1).st.players "p1" = none ∧
    (quit envLoadRelFail "p1" ⟨true, false⟩ stP1).st.players = adel stP1.players "p1" ∧
    (quit envLoadRelFail "p1" ⟨true, false⟩ stP1).st.handlers = hdel stP1.handlers "p1" ∧
    (quit envLoadRelFail "p1" ⟨true, false⟩ stP1).st.locks = stP1.locks ∧
    (quit envLoadRelFail "zz" ⟨true, false⟩ stP1).res = Except.ok () ∧
    (quit envLoadRelFail "zz" ⟨true, false⟩ stP1).st = stP1 :=
  ⟨(C4_force_quit_total envLoadRelFail stP1 "p1" false).1,
    (C4_force_quit_total envLoadRelFail stP1 "p1" false).2.1,
    ((C4_force_quit_total envLoadRelFail stP1 "p1" false).2.2.2.2 (by decide)).1,
    ((C4_force_quit_total envLoadRelFail stP1 "p1" false).2.2.2.2 (by decide)).2.1,
    ((C4_force_quit_total envLoadRelFail stP1 "p1" false).2.2.2.2 (by decide)).2.2.1,
    (C4_force_quit_total envLoadRelFail stP1 "zz" false).1,
    (C4_force_quit_total envLoadRelFail stP1 "zz" false).2.2.2.1 (by decide)⟩

/-! ### C5: destroy precondition -/

/-- Environment where the `onDestroy` hook fails. -/
def envDestroyHookFail : Env := { envAllOk with onDestroyOk := false }

/-- C5: with a non-empty `players` map, `destroy()` fails with the
"area not empty" error immediately — state untouched and the `onDestroy`
hook never invoked — regardless of any prior state or environment; with an
empty `players` map the optional `onDestroy` hook is invoked and `destroy()`
succeeds (when the hook itself does not fail, hook failures propagating as
for every lifecycle hook). -/
theorem C5_destroy_precondition (env : Env) (s : St) :
    (s.players ≠ [] →
      destroy env s = ⟨Except.error "Ares is not empty", s, []⟩) ∧
    (s.players = [] →
      (destroy env s).tr = [Eff.hookOnDestroy] ∧
      (env.onDestroyOk = true →
        destroy env s = ⟨Except.ok (), s, [Eff.hookOnDestroy]⟩)) := by
  constructor
  · intro h
    have hne : s.players.isEmpty = false := by
      cases hp : s.players with
      | nil => exact absurd hp h
      | cons a t => simp
    simp [destroy, hne]
  · intro h
    refine ⟨?_, ?_⟩
    · cases hok : env.onDestroyOk <;> simp [destroy, h, hok]
    · intro hok
      simp [destroy, h, hok]

/-- Witness for C5: a held player blocks `destroy()` without the hook
running; an empty area destroys successfully with the hook invoked. -/
theorem C5_destroy_witness :
    stP1.players ≠ [] ∧
    destroy envAllOk stP1 = ⟨Except.error "Ares is not empty", stP1, []⟩ ∧
    st0.players = [] ∧
    (destroy envAllOk st0).tr = [Eff.hookOnDestroy] ∧
    destroy envAllOk st0 = ⟨Except.ok (), st0, [Eff.hookOnDestroy]⟩ :=
  ⟨by decide, (C5_destroy_precondition envAllOk stP1).1 (by decide), rfl,
    ((C5_destroy_precondition envAllOk st0).2 rfl).1,
    ((C5_destroy_precondition envAllOk st0).2 rfl).2 rfl⟩

/-! ### C6: non-forced quit failure keeps the player -/

/-- C6: a non-forced `quit(p, opts)` on a held player that fails during
`player.stop()`, the persist-or-destroy step, or the lock release, surfaces
the failure to the caller and leaves `players` unchanged (so `p` remains
held); removal from `players` only happens after those steps succeed. -/
theorem C6_quit_failure_keeps_player (env : Env) (s : St) (p : PlayerId) (rm : Bool)
    (hp : (aget s.players p).isSome = true)
    (hbq : env.beforeQuitOk p = true)
    (hfail : env.stopOk p = false ∨
      (if rm then env.destroyOk p else env.saveOk p) = false ∨
      env.releaseOk p = false) :
    (∃ e, (quit env p ⟨false, rm⟩ s).res = Except.error e) ∧
    (quit env p ⟨false, rm⟩ s).st.players = s.players := by
  obtain ⟨v, hv⟩ := Option.isSome_iff_exists.mp hp
  obtain ⟨t, he, ht⟩ := removePlayerEvents_ok s p hp
  by_cases hstop : env.stopOk p = false
  · constructor
    · exact ⟨"player stop failed", by simp [quit, hv, hbq, he, hstop]⟩
    · simp [quit, hv, hbq, he, hstop]
  · simp only [Bool.not_eq_false] at hstop
    by_cases hpers : (if rm then env.destroyOk p else env.saveOk p) = false
    · constructor
      · refine ⟨if rm then "player destroy failed" else "savePlayer failed", ?_⟩
        cases rm <;> simp_all [quit, hv, hbq, he, hstop]
      · cases rm <;> simp_all [quit, hv, hbq, he, hstop]
    · have hrel : env.releaseOk p = false := by
        rcases hfail with h | h | h
        · rw [h] at hstop; cases hstop
        · exact absurd h hpers
        · exact h
      simp only [Bool.not_eq_false] at hpers
      constructor
      · exact ⟨"release failed", by cases rm <;> simp_all [quit, hv, hbq, he, hstop, hrel]⟩
      · cases rm <;> simp_all [quit, hv, hbq, he, hstop, hrel]

/-- Environment where `savePlayer` fails and everything else succeeds. -/
def envSaveFail : Env := { envAllOk with saveOk := fun _ => false }

/-- Witness for C6: a quit failing at the persistence step leaves `p1` held. -/
theorem C6_quit_failure_witness :
    (aget stP1.players "p1").isSome = true ∧
    ((∃ e, (quit envSaveFail "p1" ⟨false, false⟩ stP1).res = Except.error e) ∧
      (quit envSaveFail "p1" ⟨false, false⟩ stP1).st.players = stP1.players) :=
  ⟨by decide,
    C6_quit_failure_keeps_player envSaveFail stP1 "p1" false (by decide) (by decide)
      (Or.inr (Or.inl (by decide)))⟩

/-! ### C9: notification routing -/

/-- C9 counterexample: an empty target array is truthy in the source, so
`notify([], route, msg)` does not broadcast to the whole group; it pushes to
the empty list of member identities instead. -/
theorem C9_counterexample :
    notify stP1 (NotifyTarget.many []) "chat" "hi"
        = [Eff.pushUids "chat" "hi" []] ∧
    Eff.pushAll "chat" "hi" ∉ notify stP1 (NotifyTarget.many []) "chat" "hi" := by
  decide

/-- C9 (amended): `notify` broadcasts to the whole group when the target is
absent or the falsy empty-string id; an empty id array is a zero-element
collection and the message is pushed to no identity (not broadcast);
otherwise a single id is treated as a one-element collection, every listed
id is resolved through the channel membership, and the message is pushed
exactly to those resolved identities — no member outside the listed targets
receives it. -/
theorem C9_notify_routing (s : St) (route msg : String) :
    (∀ t, (t = NotifyTarget.absent ∨ t = NotifyTarget.single "") →
      notify s t route msg = [Eff.pushAll route msg]) ∧
    (∀ p, p ≠ "" →
      notify s (NotifyTarget.single p) route msg
        = [Eff.pushUids route msg [lookupUid s.channel p]]) ∧
    (∀ ps, notify s (NotifyTarget.many ps) route msg
        = [Eff.pushUids route msg (ps.map (lookupUid s.channel))]) := by
  refine ⟨?_, ?_, ?_⟩
  · rintro t (h | h) <;> subst h <;> simp [notify, notifyAll]
  · intro p hp
    simp [notify, hp]
  · intro ps
    simp [notify]

/-- An area with two connected members, used for the notify scenario. -/
def stTwoMembers : St :=
  ⟨[("p1", ⟨"p1"⟩), ("p2", ⟨"p2"⟩)],
   [("p1", Ev.connect), ("p1", Ev.disconnect), ("p1", Ev.notify),
    ("p2", Ev.connect), ("p2", Ev.disconnect), ("p2", Ev.notify)],
   [("p1", "c1"), ("p2", "c2")], ["p1", "p2"]⟩

/-- Witness for C9's amended theorem: `notify("p1", "chat", msg)` pushes
only to `p1`'s connection `c1`, not to the other member `c2`. -/
theorem C9_notify_routing_witness :
    ("p1" : PlayerId) ≠ "" ∧
    notify stTwoMembers (NotifyTarget.single "p1") "chat" "hi"
      = [Eff.pushUids "chat" "hi" [lookupUid stTwoMembers.channel "p1"]] ∧
    lookupUid stTwoMembers.channel "p1" = some "c1" :=
  ⟨by decide, (C9_notify_routing stTwoMembers "chat" "hi").2.1 "p1" (by decide), by decide⟩

/-! ### C10: loadPlayers resets before loading -/

/-- C10: `loadPlayers()` (and hence `deserialize`) clears `players` before
calling the ledger, so a bulk-load failure rejects with `players` left
empty — the previous player set is not restored. -/
theorem C10_loadPlayers_reset (env : Env) (s : St) (h : env.loadAllOk = false) :
    loadPlayers env s
        = ⟨Except.error "loadAcquiredPlayers failed", { s with players := [] }, [Eff.loadAll]⟩ ∧
    deserialize env s
        = ⟨Except.error "loadAcquiredPlayers failed", { s with players := [] }, [Eff.loadAll]⟩ := by
  have h1 : loadPlayers env s
      = ⟨Except.error "loadAcquiredPlayers failed", { s with players := [] }, [Eff.loadAll]⟩ := by
    simp [loadPlayers, h]
  exact ⟨h1, by simp [deserialize, h1]⟩

/-- Environment where the bulk load fails. -/
def envLoadAllFail : Env := { envAllOk with loadAllOk := false }

/-- Witness for C10: a failing bulk load on an area previously holding
`p1` leaves the players map empty. -/
theorem C10_loadPlayers_reset_witness :
    (loadPlayers envLoadAllFail stP1
        = ⟨Except.error "loadAcquiredPlayers failed", { stP1 with players := [] },
            [Eff.loadAll]⟩ ∧
      deserialize envLoadAllFail stP1
        = ⟨Except.error "loadAcquiredPlayers failed", { stP1 with players := [] },
            [Eff.loadAll]⟩) ∧
    stP1.players ≠ [] :=
  ⟨C10_loadPlayers_reset envLoadAllFail stP1 (by decide), by decide⟩

/-! ### Lemmas about the reconciliation passes -/

theorem syncReleasePass_players (env : Env) (ids : List PlayerId) (s : St) :
    (syncReleasePass env ids s).1.players = s.players ∧
    (syncReleasePass env ids s).1.handlers = s.handlers ∧
    (syncReleasePass env ids s).1.channel = s.channel := by
  induction ids generalizing s with
  | nil => exact ⟨rfl, rfl, rfl⟩
  | cons p rest ih =>
    by_cases hc : (aget s.players p).isSome = true
    · simp only [syncReleasePass, hc, if_true]
      exact ih s
    · simp only [Bool.not_eq_true] at hc
      by_cases hrel : env.releaseOk p = true
      · simp only [syncReleasePass, hc, Bool.false_eq_true, if_false, hrel, if_true]
        exact ih _
      · simp only [Bool.not_eq_true] at hrel
        simp only [syncReleasePass, hc, Bool.false_eq_true, if_false, hrel]
        exact ih _

theorem syncReleasePass_release_mem (env : Env) (ids : List PlayerId) (s : St) :
    ∀ p ∈ ids, (aget s.players p).isSome = false →
      Eff.release p ∈ (syncReleasePass env ids s).2 := by
  induction ids generalizing s with
  | nil => intro p hp; cases hp
  | cons p0 rest ih =>
    intro p hp habs
    rcases List.mem_cons.mp hp with h | h
    · subst h
      by_cases hrel : env.releaseOk p = true
      · simp only [syncReleasePass, habs, Bool.false_eq_true, if_false, hrel, if_true]
        simp
      · simp only [Bool.not_eq_true] at hrel
        simp only [syncReleasePass, habs, Bool.false_eq_true, if_false, hrel]
        simp
    · by_cases hc : (aget s.players p0).isSome = true
      · simp only [syncReleasePass, hc, if_true]
        exact ih s p h habs
      · simp only [Bool.not_eq_true] at hc
        by_cases hrel : env.releaseOk p0 = true
        · simp only [syncReleasePass, hc, Bool.false_eq_true, if_false, hrel, if_true]
          have hpl : ({ s with locks := s.locks.filter (fun q => q ≠ p0) } : St).players
              = s.players := rfl
          have := ih { s with locks := s.locks.filter (fun q => q ≠ p0) } p h (by rw [hpl]; exact habs)
          simp only [List.mem_append, List.mem_singleton]
          exact Or.inr this
        · simp only [Bool.not_eq_true] at hrel
          simp only [syncReleasePass, hc, Bool.false_eq_true, if_false, hrel]
          have := ih s p h habs
          simp only [List.mem_append, List.mem_cons]
          exact Or.inr this

theorem syncReleasePass_locks_mem (env : Env) (ids : List PlayerId) (s : St) :
    ∀ q, q ∈ (syncReleasePass env ids s).1.locks ↔
      q ∈ s.locks ∧ ¬(q ∈ ids ∧ (aget s.players q).isSome = false ∧ env.releaseOk q = true) := by
  induction ids generalizing s with
  | nil =>
    intro q
    simp [syncReleasePass]
  | cons p0 rest ih =>
    intro q
    by_cases hc : (aget s.players p0).isSome = true
    · simp only [syncReleasePass, hc, if_true]
      rw [ih s q]
      constructor
      · rintro ⟨h1, h2⟩
        refine ⟨h1, ?_⟩
        rintro ⟨hm, habs, hrel⟩
        rcases List.mem_cons.mp hm with h | h
        · subst h; rw [hc] at habs; cases habs
        · exact h2 ⟨h, habs, hrel⟩
      · rintro ⟨h1, h2⟩
        refine ⟨h1, ?_⟩
        rintro ⟨hm, habs, hrel⟩
        exact h2 ⟨List.mem_cons_of_mem p0 hm, habs, hrel⟩
    · simp only [Bool.not_eq_true] at hc
      by_cases hrel0 : env.releaseOk p0 = true
      · simp only [syncReleasePass, hc, Bool.false_eq_true, if_false, hrel0, if_true]
        rw [ih _ q]
        have hfilter : q ∈ (({ s with locks := s.locks.filter (fun x => x ≠ p0) } : St)).locks
            ↔ q ∈ s.locks ∧ q ≠ p0 := by
          simp [List.mem_filter]
        constructor
        · rintro ⟨h1, h2⟩
          rw [hfilter] at h1
          refine ⟨h1.1, ?_⟩
          rintro ⟨hm, habs, hrel⟩
          rcases List.mem_cons.mp hm with h | h
          · exact h1.2 h
          · exact h2 ⟨h, habs, hrel⟩
        · rintro ⟨h1, h2⟩
          by_cases hq : q = p0
          · exact absurd ⟨by rw [hq]; exact List.mem_cons_self _ _,
              by rw [hq]; exact hc, by rw [hq]; exact hrel0⟩ h2
          · refine ⟨hfilter.mpr ⟨h1, hq⟩, ?_⟩
            rintro ⟨hm, habs, hrel⟩
            exact h2 ⟨List.mem_cons_of_mem p0 hm, habs, hrel⟩
      · simp only [Bool.not_eq_true] at hrel0
        simp only [syncReleasePass, hc, Bool.false_eq_true, if_false, hrel0]
        rw [ih s q]
        constructor
        · rintro ⟨h1, h2⟩
          refine ⟨h1, ?_⟩
          rintro ⟨hm, habs, hrel⟩
          rcases List.mem_cons.mp hm with h | h
          · subst h; rw [hrel0] at hrel; cases hrel
          · exact h2 ⟨h, habs, hrel⟩
        · rintro ⟨h1, h2⟩
          refine ⟨h1, ?_⟩
          rintro ⟨hm, habs, hrel⟩
          exact h2 ⟨List.mem_cons_of_mem p0 hm, habs, hrel⟩

theorem syncReleasePass_noop (env : Env) (ids : List PlayerId) (s : St)
    (h : ∀ p ∈ ids, (aget s.players p).isSome = true) :
    syncReleasePass env ids s = (s, []) := by
  induction ids with
  | nil => rfl
  | cons p0 rest ih =>
    have h0 := h p0 (List.mem_cons_self _ _)
    simp only [syncReleasePass, h0, if_true]
    exact ih (fun p hp => h p (List.mem_cons_of_mem p0 hp))

theorem quit_force_aget (env : Env) (p : PlayerId) (r : Bool) (s : St) (q : PlayerId) :
    aget (quit env p ⟨true, r⟩ s).st.players q
      = if q = p then none else aget s.players q := by
  cases hc : aget s.players p with
  | none =>
    simp only [quit, hc]
    by_cases hq : q = p
    · subst hq; simp [hc]
    · simp [hq]
  | some v =>
    have hsm : (aget s.players p).isSome = true := by rw [hc]; rfl
    obtain ⟨t, he, ht⟩ := removePlayerEvents_ok s p hsm
    simp only [quit, hc, he]
    exact aget_adel s.players p q

theorem quit_force_locks (env : Env) (p : PlayerId) (r : Bool) (s : St) :
    (quit env p ⟨true, r⟩ s).st.locks = s.locks := by
  cases hc : aget s.players p with
  | none => simp [quit, hc]
  | some v =>
    have hsm : (aget s.players p).isSome = true := by rw [hc]; rfl
    obtain ⟨t, he, ht⟩ := removePlayerEvents_ok s p hsm
    simp [quit, hc, he]

theorem syncQuitPass_aget (env : Env) (aIds : List PlayerId) (ks : List PlayerId) (s : St) :
    ∀ q, aget ((syncQuitPass env aIds ks s).1).players q
      = if q ∈ ks ∧ q ∉ aIds then none else aget s.players q := by
  induction ks generalizing s with
  | nil =>
    intro q
    simp [syncQuitPass]
  | cons p0 rest ih =>
    intro q
    by_cases hm : p0 ∈ aIds
    · simp only [syncQuitPass, hm, if_true]
      rw [ih s q]
      by_cases hq : q = p0
      · subst hq
        simp [hm]
      · simp [hq]
    · simp only [syncQuitPass, hm, if_false]
      rw [ih _ q, quit_force_aget env p0 false s q]
      by_cases hq : q = p0
      · subst hq
        simp [hm]
      · by_cases hr : q ∈ rest ∧ q ∉ aIds
        · simp [hr, hq]
        · simp only [hq, if_false]
          have : ¬(q ∈ p0 :: rest ∧ q ∉ aIds) := by
            rintro ⟨hmem, hna⟩
            rcases List.mem_cons.mp hmem with h | h
            · exact hq h
            · exact hr ⟨h, hna⟩
          simp [hr, this, hq]

theorem syncQuitPass_locks (env : Env) (aIds : List PlayerId) (ks : List PlayerId) (s : St) :
    (syncQuitPass env aIds ks s).1.locks = s.locks := by
  induction ks generalizing s with
  | nil => rfl
  | cons p0 rest ih =>
    by_cases hm : p0 ∈ aIds
    · simp only [syncQuitPass, hm, if_true]
      exact ih s
    · simp only [syncQuitPass, hm, if_false]
      rw [ih _, quit_force_locks env p0 false s]

theorem syncQuitPass_noop (env : Env) (aIds : List PlayerId) (ks : List PlayerId) (s : St)
    (h : ∀ p ∈ ks, p ∈ aIds) :
    syncQuitPass env aIds ks s = (s, []) := by
  induction ks with
  | nil => rfl
  | cons p0 rest ih =>
    have h0 := h p0 (List.mem_cons_self _ _)
    simp only [syncQuitPass, h0, if_true]
    exact ih (fun p hp => h p (List.mem_cons_of_mem p0 hp))

theorem mem_keys_iff {s : St} {p : PlayerId} :
    p ∈ keys s ↔ (aget s.players p).isSome = true :=
  Iff.symm aget_isSome_iff

/-! ### C2: reconciliation corrections -/

/-- C2: `syncAcquiredPlayers()` with the authoritative set `A = s.locks` and
local set `L = keys s`: when the fetch succeeds the operation always
succeeds (individual correction failures never propagate), a lock release is
issued for every id in `A` but not in `L`, and every id in `L` but not in
`A` has been force-quit (absent from `players` when the operation settles);
only a failed fetch of the authoritative set propagates. -/
theorem C2_sync_corrections (env : Env) (s : St) :
    (env.fetchOk = false →
      syncAcquiredPlayers env s
        = ⟨Except.error "getAcquiredPlayerIds failed", s, [Eff.fetchAcquired]⟩) ∧
    (env.fetchOk = true →
      (syncAcquiredPlayers env s).res = Except.ok () ∧
      (∀ p ∈ s.locks, (aget s.players p).isSome = false →
        Eff.release p ∈ (syncAcquiredPlayers env s).tr) ∧
      (∀ p ∈ keys s, p ∉ s.locks →
        aget (syncAcquiredPlayers env s).st.players p = none)) := by
  constructor
  · intro h
    simp [syncAcquiredPlayers, h]
  · intro h
    have hres : syncAcquiredPlayers env s = ⟨Except.ok (),
        (syncQuitPass env s.locks (keys s) (syncReleasePass env s.locks s).1).1,
        Eff.fetchAcquired :: ((syncReleasePass env s.locks s).2
          ++ (syncQuitPass env s.locks (keys s) (syncReleasePass env s.locks s).1).2)⟩ := by
      simp [syncAcquiredPlayers, h]
    refine ⟨by rw [hres], ?_, ?_⟩
    · intro p hp habs
      rw [hres]
      simp only [List.mem_cons, List.mem_append]
      exact Or.inr (Or.inl (syncReleasePass_release_mem env s.locks s p hp habs))
    · intro p hp hnl
      rw [hres]
      rw [show ((⟨Except.ok (),
          (syncQuitPass env s.locks (keys s) (syncReleasePass env s.locks s).1).1,
          Eff.fetchAcquired :: ((syncReleasePass env s.locks s).2
            ++ (syncQuitPass env s.locks (keys s) (syncReleasePass env s.locks s).1).2)⟩ : Out).st)
          = (syncQuitPass env s.locks (keys s) (syncReleasePass env s.locks s).1).1 from rfl]
      rw [syncQuitPass_aget env s.locks (keys s) _ p]
      simp [hp, hnl]

/-- A state diverging from the ledger: locally held `{p2, p3}` while the
ledger attributes `{p1, p2}` to the area. -/
def stSync : St :=
  ⟨[("p2", ⟨"p2"⟩), ("p3", ⟨"p3"⟩)],
   [("p2", Ev.connect), ("p2", Ev.disconnect), ("p2", Ev.notify),
    ("p3", Ev.connect), ("p3", Ev.disconnect), ("p3", Ev.notify)],
   [], ["p1", "p2"]⟩

/-- Witness for C2, the spec scenario: ledger reports `{p1, p2}`, local
players are `{p2, p3}`; afterwards `p1`'s lock was released, `p3` was
force-quit, and the final local set is `{p2}` with lock set `{p2}`. -/
theorem C2_sync_corrections_witness :
    envAllOk.fetchOk = true ∧
    (syncAcquiredPlayers envAllOk stSync).res = Except.ok () ∧
    Eff.release "p1" ∈ (syncAcquiredPlayers envAllOk stSync).tr ∧
    aget (syncAcquiredPlayers envAllOk stSync).st.players "p3" = none ∧
    Eff.logWarn "quit by force" ∈ (syncAcquiredPlayers envAllOk stSync).tr ∧
    keys (syncAcquiredPlayers envAllOk stSync).st = ["p2"] ∧
    (syncAcquiredPlayers envAllOk stSync).st.locks = ["p2"] :=
  ⟨rfl, ((C2_sync_corrections envAllOk stSync).2 rfl).1,
    ((C2_sync_corrections envAllOk stSync).2 rfl).2.1 "p1" (by decide) (by decide),
    ((C2_sync_corrections envAllOk stSync).2 rfl).2.2 "p3" (by decide) (by decide),
    by decide, by decide, by decide⟩

/-! ### C3: reconciliation fixpoint and idempotence -/

/-- C3: when the fetch succeeds and every needed correction succeeds (the
releases for orphaned locks — forced local removals cannot fail), after
`syncAcquiredPlayers()` the locally held set coincides with the ledger's
authoritative set, and the operation is idempotent: a second run performs no
corrections (its trace is just the fetch) and leaves both the local players
and the ledger state unchanged. -/
theorem C3_sync_fixpoint (env : Env) (s : St)
    (hfetch : env.fetchOk = true)
    (hrel : ∀ p ∈ s.locks, (aget s.players p).isSome = false → env.releaseOk p = true) :
    (syncAcquiredPlayers env s).res = Except.ok () ∧
    (∀ q, q ∈ keys (syncAcquiredPlayers env s).st
      ↔ q ∈ (syncAcquiredPlayers env s).st.locks) ∧
    syncAcquiredPlayers env (syncAcquiredPlayers env s).st
      = ⟨Except.ok (), (syncAcquiredPlayers env s).st, [Eff.fetchAcquired]⟩ := by
  have hres : syncAcquiredPlayers env s = ⟨Except.ok (),
      (syncQuitPass env s.locks (keys s) (syncReleasePass env s.locks s).1).1,
      Eff.fetchAcquired :: ((syncReleasePass env s.locks s).2
        ++ (syncQuitPass env s.locks (keys s) (syncReleasePass env s.locks s).1).2)⟩ := by
    simp [syncAcquiredPlayers, hfetch]
  have hpl : (syncReleasePass env s.locks s).1.players = s.players :=
    (syncReleasePass_players env s.locks s).1
  have locks1 : ∀ q, q ∈ (syncReleasePass env s.locks s).1.locks
      ↔ q ∈ s.locks ∧ (aget s.players q).isSome = true := by
    intro q
    rw [syncReleasePass_locks_mem env s.locks s q]
    constructor
    · rintro ⟨h1, h2⟩
      refine ⟨h1, ?_⟩
      cases hsm : (aget s.players q).isSome with
      | true => rfl
      | false => exact absurd ⟨h1, hsm, hrel q h1 hsm⟩ h2
    · rintro ⟨h1, h2⟩
      refine ⟨h1, ?_⟩
      rintro ⟨_, habs, _⟩
      rw [h2] at habs
      cases habs
  have hsf := syncQuitPass_aget env s.locks (keys s) (syncReleasePass env s.locks s).1
  have agetf : ∀ q, aget ((syncQuitPass env s.locks (keys s)
        (syncReleasePass env s.locks s).1).1).players q
      = if q ∈ keys s ∧ q ∉ s.locks then none else aget s.players q := by
    intro q
    rw [hsf q, hpl]
  have lockf : (syncQuitPass env s.locks (keys s)
      (syncReleasePass env s.locks s).1).1.locks = (syncReleasePass env s.locks s).1.locks :=
    syncQuitPass_locks env s.locks (keys s) _
  have hiff : ∀ q, q ∈ keys (syncQuitPass env s.locks (keys s)
        (syncReleasePass env s.locks s).1).1
      ↔ q ∈ (syncQuitPass env s.locks (keys s) (syncReleasePass env s.locks s).1).1.locks := by
    intro q
    rw [mem_keys_iff, agetf q, lockf, locks1 q]
    by_cases hcond : q ∈ keys s ∧ q ∉ s.locks
    · rw [if_pos hcond]
      constructor
      · intro h
        simp at h
      · rintro ⟨h1, _⟩
        exact absurd h1 hcond.2
    · rw [if_neg hcond]
      constructor
      · intro h
        refine ⟨?_, h⟩
        by_cases hl : q ∈ s.locks
        · exact hl
        · exact absurd ⟨mem_keys_iff.mpr h, hl⟩ hcond
      · rintro ⟨_, h2⟩
        exact h2
  refine ⟨by rw [hres], by rw [hres]; exact hiff, ?_⟩
  rw [hres]
  have hnoop1 : syncReleasePass env
      (syncQuitPass env s.locks (keys s) (syncReleasePass env s.locks s).1).1.locks
      (syncQuitPass env s.locks (keys s) (syncReleasePass env s.locks s).1).1
      = ((syncQuitPass env s.locks (keys s) (syncReleasePass env s.locks s).1).1, []) := by
    apply syncReleasePass_noop
    intro p hp
    exact mem_keys_iff.mp ((hiff p).mpr hp)
  have hnoop2 : syncQuitPass env
      (syncQuitPass env s.locks (keys s) (syncReleasePass env s.locks s).1).1.locks
      (keys (syncQuitPass env s.locks (keys s) (syncReleasePass env s.locks s).1).1)
      (syncQuitPass env s.locks (keys s) (syncReleasePass env s.locks s).1).1
      = ((syncQuitPass env s.locks (keys s) (syncReleasePass env s.locks s).1).1, []) := by
    apply syncQuitPass_noop
    intro p hp
    exact (hiff p).mp hp
  simp [syncAcquiredPlayers, hfetch, hnoop1, hnoop2]

/-- Witness for C3: on the divergent scenario state, after one pass local
and ledger sets agree and the second pass is a pure fetch no-op. -/
theorem C3_sync_fixpoint_witness :
    (syncAcquiredPlayers envAllOk stSync).res = Except.ok () ∧
    ("p2" ∈ keys (syncAcquiredPlayers envAllOk stSync).st
      ↔ "p2" ∈ (syncAcquiredPlayers envAllOk stSync).st.locks) ∧
    ("p1" ∈ keys (syncAcquiredPlayers envAllOk stSync).st
      ↔ "p1" ∈ (syncAcquiredPlayers envAllOk stSync).st.locks) ∧
    syncAcquiredPlayers envAllOk (syncAcquiredPlayers envAllOk stSync).st
      = ⟨Except.ok (), (syncAcquiredPlayers envAllOk stSync).st, [Eff.fetchAcquired]⟩ :=
  ⟨(C3_sync_fixpoint envAllOk stSync rfl (by decide)).1,
    (C3_sync_fixpoint envAllOk stSync rfl (by decide)).2.1 "p2",
    (C3_sync_fixpoint envAllOk stSync rfl (by decide)).2.1 "p1",
    (C3_sync_fixpoint envAllOk stSync rfl (by decide)).2.2⟩

/-! ### C8: stop protocol -/

theorem removeAllPlayerEvents_reg (ks : List PlayerId) :
    ∀ s : St, ks.Nodup →
    (∀ p ∈ ks, (aget s.players p).isSome = true) →
    (∀ p ∈ ks, (p, Ev.connect) ∈ s.handlers ∧ (p, Ev.disconnect) ∈ s.handlers ∧
      (p, Ev.notify) ∈ s.handlers) →
    ∃ hs, removeAllPlayerEvents s ks
      = Except.ok (⟨s.players, hs, s.channel, s.locks⟩,
          ks.flatMap (fun p =>
            [Eff.unsub p Ev.connect, Eff.unsub p Ev.disconnect, Eff.unsub p Ev.notify])) := by
  induction ks with
  | nil =>
    intro s _ _ _
    exact ⟨s.handlers, rfl⟩
  | cons p rest ih =>
    intro s hnd hpres hreg
    obtain ⟨hp1, hp2, hp3⟩ := hreg p (List.mem_cons_self _ _)
    have hpres0 := hpres p (List.mem_cons_self _ _)
    have he := removePlayerEvents_reg s p hpres0 hp1 hp2 hp3
    have hpn : p ∉ rest := (List.nodup_cons.mp hnd).1
    have hnd' : rest.Nodup := (List.nodup_cons.mp hnd).2
    have hpres' : ∀ q ∈ rest,
        (aget ({ s with handlers := hdel s.handlers p } : St).players q).isSome = true :=
      fun q hq => hpres q (List.mem_cons_of_mem _ hq)
    have hreg' : ∀ q ∈ rest,
        (q, Ev.connect) ∈ ({ s with handlers := hdel s.handlers p } : St).handlers ∧
        (q, Ev.disconnect) ∈ ({ s with handlers := hdel s.handlers p } : St).handlers ∧
        (q, Ev.notify) ∈ ({ s with handlers := hdel s.handlers p } : St).handlers := by
      intro q hq
      obtain ⟨a, b, c⟩ := hreg q (List.mem_cons_of_mem _ hq)
      have hqp : q ≠ p := fun hc => hpn (hc ▸ hq)
      exact ⟨mem_hdel.mpr ⟨a, hqp⟩, mem_hdel.mpr ⟨b, hqp⟩, mem_hdel.mpr ⟨c, hqp⟩⟩
    obtain ⟨hs', hrec⟩ := ih { s with handlers := hdel s.handlers p } hnd' hpres' hreg'
    refine ⟨hs', ?_⟩
    simp only [removeAllPlayerEvents, he, hrec, List.flatMap_cons]

/-- C8: `stop()` on an area whose held players are all wired (the `Running`
configuration) first runs the `onStop` hook, then unsubscribes every held
player's events, then invokes `player.stop()` on every held player — all of
them, even when one fails — and destroys the broadcast channel only at the
very end and only when every stop succeeded; any player-stop failure makes
`stop()` fail.  The trace equation exhibits the exact order. -/
theorem C8_stop_protocol (env : Env) (s : St)
    (hnd : (keys s).Nodup)
    (hreg : ∀ p ∈ keys s, (p, Ev.connect) ∈ s.handlers ∧ (p, Ev.disconnect) ∈ s.handlers ∧
      (p, Ev.notify) ∈ s.handlers)
    (hok : env.onStopOk = true) :
    (stop env s).tr
      = Eff.hookOnStop ::
          ((keys s).flatMap (fun p =>
              [Eff.unsub p Ev.connect, Eff.unsub p Ev.disconnect, Eff.unsub p Ev.notify])
            ++ ((keys s).map Eff.pstop
              ++ (if (keys s).all env.stopOk then [Eff.destroyChannel] else []))) ∧
    ((stop env s).res = Except.ok () ↔ (keys s).all env.stopOk = true) ∧
    (stop env s).st.players = s.players := by
  have hpres : ∀ p ∈ keys s, (aget s.players p).isSome = true :=
    fun p hp => mem_keys_iff.mp hp
  obtain ⟨hs', hrm⟩ := removeAllPlayerEvents_reg (keys s) s hnd hpres hreg
  have hkeq : keys (⟨s.players, hs', s.channel, s.locks⟩ : St) = keys s := rfl
  by_cases hall : (keys s).all env.stopOk = true
  · have hst : stop env s = ⟨Except.ok (),
        ⟨s.players, hs', [], s.locks⟩,
        Eff.hookOnStop ::
          ((keys s).flatMap (fun p =>
              [Eff.unsub p Ev.connect, Eff.unsub p Ev.disconnect, Eff.unsub p Ev.notify])
            ++ (keys s).map Eff.pstop) ++ [Eff.destroyChannel]⟩ := by
      simp [stop, stopPlayers, hok, hrm, hkeq, hall]
    rw [hst]
    refine ⟨?_, ?_, rfl⟩
    · simp [hall]
    · simp [hall]
  · have hallf : (keys s).all env.stopOk = false := by
      cases hh : (keys s).all env.stopOk with
      | true => exact absurd hh hall
      | false => rfl
    have hst : stop env s = ⟨Except.error "player stop failed",
        ⟨s.players, hs', s.channel, s.locks⟩,
        Eff.hookOnStop ::
          ((keys s).flatMap (fun p =>
              [Eff.unsub p Ev.connect, Eff.unsub p Ev.disconnect, Eff.unsub p Ev.notify])
            ++ (keys s).map Eff.pstop)⟩ := by
      simp [stop, stopPlayers, hok, hrm, hkeq, hallf]
    rw [hst]
    refine ⟨?_, ?_, rfl⟩
    · simp [hallf]
    · simp [hallf]

/-- Environment where `p1`'s stop fails but every other call succeeds. -/
def envStopP1Fail : Env := { envAllOk with stopOk := fun p => p ≠ "p1" }

/-- Witness for C8: stopping an area holding `p1` and `p2` where `p1`'s
stop fails still issues both `player.stop()` calls after both players'
events were unsubscribed, never destroys the channel, and fails. -/
theorem C8_stop_protocol_witness :
    (keys stTwoMembers).Nodup ∧
    ((stop envStopP1Fail stTwoMembers).tr
        = Eff.hookOnStop ::
            ((keys stTwoMembers).flatMap (fun p =>
                [Eff.unsub p Ev.connect, Eff.unsub p Ev.disconnect, Eff.unsub p Ev.notify])
              ++ ((keys stTwoMembers).map Eff.pstop
                ++ (if (keys stTwoMembers).all envStopP1Fail.stopOk
                    then [Eff.destroyChannel] else []))) ∧
      ((stop envStopP1Fail stTwoMembers).res = Except.ok ()
        ↔ (keys stTwoMembers).all envStopP1Fail.stopOk = true) ∧
      (stop envStopP1Fail stTwoMembers).st.players = stTwoMembers.players) ∧
    Eff.pstop "p1" ∈ (stop envStopP1Fail stTwoMembers).tr ∧
    Eff.pstop "p2" ∈ (stop envStopP1Fail stTwoMembers).tr ∧
    Eff.destroyChannel ∉ (stop envStopP1Fail stTwoMembers).tr ∧
    (stop envStopP1Fail stTwoMembers).res = Except.error "player stop failed" :=
  ⟨by decide,
    C8_stop_protocol envStopP1Fail stTwoMembers (by decide) (by decide) rfl,
    by decide, by decide, by decide, by decide⟩

/-! ### C7: event subscriptions vs players -/

theorem eventInv_of (s s' : St) (hinv : eventInv s)
    (hp : s'.players = s.players) (hh : s'.handlers = s.handlers) : eventInv s' := by
  unfold eventInv keys at hinv ⊢
  rw [hp, hh]
  exact hinv

theorem eventInv_extend (pl : List (PlayerId × Player)) (hs : List (PlayerId × Ev))
    (c : List (PlayerId × Uid)) (l : List PlayerId)
    (c' : List (PlayerId × Uid)) (l' : List PlayerId) (p : PlayerId) (v : Player)
    (hinv : eventInv ⟨pl, hs, c, l⟩) (hp : p ∉ pl.map Prod.fst) :
    eventInv ⟨pl ++ [(p, v)],
      hs ++ [(p, Ev.connect), (p, Ev.disconnect), (p, Ev.notify)], c', l'⟩ := by
  obtain ⟨h1, h2⟩ := hinv
  constructor
  · intro q hq
    simp only [keys, List.map_append, List.mem_append, List.map_cons, List.map_nil,
      List.mem_singleton] at hq
    rcases hq with hq | hq
    · obtain ⟨a, b, c₀⟩ := h1 q hq
      exact ⟨List.mem_append_left _ a, List.mem_append_left _ b, List.mem_append_left _ c₀⟩
    · subst hq
      refine ⟨List.mem_append_right _ ?_, List.mem_append_right _ ?_,
        List.mem_append_right _ ?_⟩ <;> simp
  · intro pe hpe
    simp only [keys, List.map_append, List.mem_append, List.map_cons, List.map_nil,
      List.mem_singleton]
    rcases List.mem_append.mp hpe with h | h
    · exact Or.inl (h2 pe h)
    · simp only [List.mem_cons, List.not_mem_nil, or_false] at h
      rcases h with h | h | h <;> (subst h; exact Or.inr rfl)

theorem eventInv_remove (pl : List (PlayerId × Player)) (hs : List (PlayerId × Ev))
    (c : List (PlayerId × Uid)) (l : List PlayerId)
    (c' : List (PlayerId × Uid)) (l' : List PlayerId) (p : PlayerId)
    (hinv : eventInv ⟨pl, hs, c, l⟩) :
    eventInv ⟨adel pl p, hdel hs p, c', l'⟩ := by
  obtain ⟨h1, h2⟩ := hinv
  constructor
  · intro q hq
    have hq' := mem_keys_adel.mp hq
    obtain ⟨a, b, c₀⟩ := h1 q hq'.1
    exact ⟨mem_hdel.mpr ⟨a, hq'.2⟩, mem_hdel.mpr ⟨b, hq'.2⟩, mem_hdel.mpr ⟨c₀, hq'.2⟩⟩
  · intro pe hpe
    have hpe' := mem_hdel.mp hpe
    exact mem_keys_adel.mpr ⟨h2 pe hpe'.1, hpe'.2⟩

/-- C7 counterexample: an area in `Running` shape holding `p1` with all
subscriptions satisfies the invariant; a non-forced quit whose
`player.stop()` fails unsubscribes `p1`'s events yet leaves `p1` in
`players`, so at the public interface (the settled failed `quit`) the
"subscribed iff held" invariant is broken. -/
theorem C7_counterexample :
    eventInv stP1 ∧
    (quit envStopP1Fail "p1" ⟨false, false⟩ stP1).res = Except.error "player stop failed" ∧
    ¬ eventInv (quit envStopP1Fail "p1" ⟨false, false⟩ stP1).st := by
  decide

/-- C7 (amended): the "subscriptions iff held players" invariant is
preserved by every outcome of `join` of a not-yet-held player and by every
`quit` that settles successfully (including forced and no-op quits); it can
be broken only by a non-forced `quit` that fails after its unsubscribe step
(the player then remains held without subscriptions until a retry, force
eviction, or reconciliation). -/
theorem C7_subscriptions_match_players (env : Env) (s : St) (p : PlayerId) (opts : QOpts)
    (hinv : eventInv s) :
    (p ∉ keys s → eventInv (join env p s).st) ∧
    ((quit env p opts s).res = Except.ok () → eventInv (quit env p opts s).st) := by
  constructor
  · intro hp
    have hp' : p ∉ s.players.map Prod.fst := hp
    by_cases hacq : env.acquireOk p = false
    · simp only [join, hacq, if_true]
      exact hinv
    · simp only [Bool.not_eq_false] at hacq
      have hdelp : adel s.players p = s.players := adel_of_not_mem hp'
      by_cases hbj : env.beforeJoinOk = false
      · by_cases hrel : env.releaseOk p = true
        · simp only [join, joinRollback, hacq, Bool.true_eq_false, if_false, hbj, if_true,
            hrel]
          exact eventInv_of s _ hinv hdelp rfl
        · simp only [Bool.not_eq_true] at hrel
          simp only [join, joinRollback, hacq, Bool.true_eq_false, if_false, hbj, if_true,
            hrel, Bool.false_eq_true]
          exact eventInv_of s _ hinv hdelp rfl
      · simp only [Bool.not_eq_false] at hbj
        by_cases hload : env.loadOk p = false
        · by_cases hrel : env.releaseOk p = true
          · simp only [join, joinRollback, hacq, hbj, Bool.true_eq_false, if_false, hload,
              if_true, hrel]
            exact eventInv_of s _ hinv hdelp rfl
          · simp only [Bool.not_eq_true] at hrel
            simp only [join, joinRollback, hacq, hbj, Bool.true_eq_false, if_false, hload,
              if_true, hrel, Bool.false_eq_true]
            exact eventInv_of s _ hinv hdelp rfl
        · simp only [Bool.not_eq_false] at hload
          have hset : aset s.players p ⟨p⟩ = s.players ++ [(p, ⟨p⟩)] := aset_fresh _ hp'
          have hfreshh : ∀ ev, (p, ev) ∉ s.handlers := fun ev hc => hp (hinv.2 _ hc)
          have hpres : (aget (aset s.players p (⟨p⟩ : Player)) p).isSome = true := by
            rw [hset, aget_isSome_iff]
            simp
          have he := registerPlayerEvents_fresh
            ⟨aset s.players p ⟨p⟩, s.handlers, s.channel,
              if p ∈ s.locks then s.locks else s.locks ++ [p]⟩ p hpres hfreshh
          have hinv2 : eventInv ⟨aset s.players p ⟨p⟩,
              s.handlers ++ [(p, Ev.connect), (p, Ev.disconnect), (p, Ev.notify)],
              s.channel, if p ∈ s.locks then s.locks else s.locks ++ [p]⟩ := by
            rw [hset]
            exact eventInv_extend s.players s.handlers s.channel s.locks s.channel
              (if p ∈ s.locks then s.locks else s.locks ++ [p]) p ⟨p⟩
              (eventInv_of s _ hinv rfl rfl) hp'
          by_cases hstart : env.startOk p = false
          · simp only [join, hacq, hbj, hload, Bool.true_eq_false, if_false, he, hstart,
              if_true]
            exact hinv2
          · simp only [Bool.not_eq_false] at hstart
            by_cases honj : env.onJoinOk p = false
            · simp only [join, hacq, hbj, hload, hstart, Bool.true_eq_false, if_false, he,
                honj, if_true]
              exact hinv2
            · simp only [Bool.not_eq_false] at honj
              simp only [join, hacq, hbj, hload, hstart, honj, Bool.true_eq_false, if_false,
                he]
              exact hinv2
  · intro hres
    cases hc : aget s.players p with
    | none =>
      simp only [quit, hc]
      exact hinv
    | some v =>
      have hsm : (aget s.players p).isSome = true := by rw [hc]; rfl
      obtain ⟨t, he, ht⟩ := removePlayerEvents_ok s p hsm
      by_cases hforce : opts.force = true
      · simp only [quit, hc, hforce, if_true, he]
        exact eventInv_remove s.players s.handlers s.channel s.locks s.channel s.locks p
          (eventInv_of s _ hinv rfl rfl)
      · have hforce' : opts.force = false := by
          cases hf : opts.force with
          | true => exact absurd hf hforce
          | false => rfl
        by_cases hbq : env.beforeQuitOk p = false
        · simp [quit, hc, hforce', hbq] at hres
        · simp only [Bool.not_eq_false] at hbq
          by_cases hstop : env.stopOk p = false
          · simp [quit, hc, hforce', hbq, he, hstop] at hres
          · simp only [Bool.not_eq_false] at hstop
            by_cases hpers : (if opts.remove = true then env.destroyOk p
                else env.saveOk p) = false
            · simp [quit, hc, hforce', hbq, he, hstop, hpers] at hres
            · have hpers' : (if opts.remove = true then env.destroyOk p
                  else env.saveOk p) = true := by
                cases hf : (if opts.remove = true then env.destroyOk p
                    else env.saveOk p) with
                | true => rfl
                | false => exact absurd hf hpers
              by_cases hrel : env.releaseOk p = false
              · simp [quit, hc, hforce', hbq, he, hstop, hpers', hrel] at hres
              · simp only [Bool.not_eq_false] at hrel
                by_cases honq : env.onQuitOk p = false
                · simp [quit, hc, hforce', hbq, he, hstop, hpers', hrel, honq] at hres
                · simp only [Bool.not_eq_false] at honq
                  simp only [quit, hc, hforce', Bool.false_eq_true, if_false, hbq,
                    Bool.true_eq_false, he, hstop, hpers', hrel, honq]
                  exact eventInv_remove s.players s.handlers s.channel s.locks s.channel
                    (s.locks.filter (fun q => q ≠ p)) p (eventInv_of s _ hinv rfl rfl)

/-- Witness for C7's amended theorem: on a wired two-player area the
invariant survives a fresh successful join and a successful normal quit. -/
theorem C7_subscriptions_witness :
    eventInv stTwoMembers ∧ "p9" ∉ keys stTwoMembers ∧
    eventInv (join envAllOk "p9" stTwoMembers).st ∧
    (quit envAllOk "p1" ⟨false, false⟩ stTwoMembers).res = Except.ok () ∧
    eventInv (quit envAllOk "p1" ⟨false, false⟩ stTwoMembers).st :=
  ⟨by decide, by decide,
    (C7_subscriptions_match_players envAllOk stTwoMembers "p9" ⟨false, false⟩
      (by decide)).1 (by decide),
    by decide,
    (C7_subscriptions_match_players envAllOk stTwoMembers "p1" ⟨false, false⟩
      (by decide)).2 (by decide)⟩

end QuickPomelo
